import Mathlib

/-!
Verification development for the email-rss repository.

Go strings are byte sequences; we embed them as `List Nat` (one entry per
byte).  `len`, slicing and indexing in the Go source are byte-based, and the
embedding mirrors that exactly.  Go's `strings.ToLower` is Unicode aware; the
source only ever searches for ASCII patterns after lowering, and the embedding
lowers the ASCII letters A-Z byte-wise, which agrees with Go on ASCII text.

A Go slice expression `s[a:b]` panics at run time when the bounds are out of
range.  Functions of the source in which such a panic is reachable are
embedded with result type `Option (List Nat)`, `none` standing for the
run-time panic; total functions keep a plain result type.

The in-place loops of the source (`removeCSS`, `stripHTML`,
`decodeQuotedPrintable`, `strings.ReplaceAll`) repeatedly shrink the string
they work on.  Each loop is embedded as a step function iterated by a
structural combinator that is given `length + 1` units of fuel; the step
functions strictly shrink the string (proved in the `stepDec` lemmas below),
and the `iter*_congr` lemmas show the fuel never runs out, so the embedding
computes the exact fixpoint the Go loop does.
-/

/-- Bytes of an ASCII string literal (each char below 128, so the code points
are the UTF-8 bytes). -/
def ascii (s : String) : List Nat := s.data.map Char.toNat

/-- Byte-wise ASCII lowering of a single byte (A-Z to a-z). -/
def toLowerB (b : Nat) : Nat := if 65 ≤ b ∧ b ≤ 90 then b + 32 else b

/-- Embedding of Go `strings.ToLower`, restricted to its ASCII behaviour
(see the header comment). -/
def toLower (s : List Nat) : List Nat := s.map toLowerB

/-- Embedding of Go `strings.Index`: first byte offset at which `pat` occurs
in `s` (`strings.Index` returns -1 when absent, embedded as `none`). -/
def goIndex (s pat : List Nat) : Option Nat :=
  (List.range (s.length + 1)).find? (fun i => pat.isPrefixOf (s.drop i))

/-- Embedding of Go `strings.Contains`. -/
def goContains (s pat : List Nat) : Bool := (goIndex s pat).isSome

/-- Fueled worker for Go `strings.ReplaceAll` (leftmost, non-overlapping; the
scan resumes after each match and never revisits the seam).  The source only
ever calls it with a non-empty pattern; the `[]` branch is unreachable. -/
def replaceAllF (pat rep : List Nat) : Nat → List Nat → List Nat
  | 0, s => s
  | fuel + 1, s =>
    match goIndex s pat, pat with
    | some i, _ :: _ => s.take i ++ rep ++ replaceAllF pat rep fuel (s.drop (i + pat.length))
    | _, _ => s

/-- Embedding of Go `strings.ReplaceAll s pat rep`. -/
def replaceAll (s pat rep : List Nat) : List Nat := replaceAllF pat rep (s.length + 1) s

/-- Go `len(s)` bound for a successful `strings.Index`: the match fits in `s`. -/
theorem goIndex_some_le (s pat : List Nat) (i : Nat) (h : goIndex s pat = some i) :
    i + pat.length ≤ s.length := by
  unfold goIndex at h
  have hmem := List.mem_of_find?_eq_some h
  have hp := List.find?_some h
  rw [List.mem_range] at hmem
  have hpre : pat <+: s.drop i := List.isPrefixOf_iff_prefix.mp hp
  have := hpre.length_le
  rw [List.length_drop] at this
  omega

/-- The fuel given to `replaceAllF` is irrelevant once it exceeds the length
of the string, so `replaceAll` computes the true fixpoint of the Go loop. -/
theorem replaceAllF_congr (pat rep : List Nat) :
    ∀ f1 f2 s, s.length < f1 → s.length < f2 →
      replaceAllF pat rep f1 s = replaceAllF pat rep f2 s := by
  intro f1
  induction f1 with
  | zero => intro f2 s h1 h2; omega
  | succ n ih =>
    intro f2 s h1 h2
    match f2, h2 with
    | m + 1, h2 =>
      show replaceAllF pat rep (n + 1) s = replaceAllF pat rep (m + 1) s
      unfold replaceAllF
      cases hidx : goIndex s pat with
      | none => simp
      | some i =>
        cases pat with
        | nil => simp
        | cons p ps =>
          simp only
          have hle := goIndex_some_le s (p :: ps) i hidx
          have hlen : (s.drop (i + (p :: ps).length)).length < s.length := by
            rw [List.length_drop]
            simp only [List.length_cons] at hle ⊢
            omega
          rw [ih m (s.drop (i + (p :: ps).length)) (by omega) (by omega)]

/-- Iterator for the in-place `for` loops of the source that may panic: the
step function returns `Sum.inl v` when the loop finishes with value `v`
(`v = none` embeds a Go run-time panic) and `Sum.inr s` when it continues
with the shrunk string `s`.  Fuel 0 is unreachable for the fuel the wrappers
supply (see `iterE_congr`). -/
def iterE (step : List Nat → Option (List Nat) ⊕ List Nat) : Nat → List Nat → Option (List Nat)
  | 0, _ => none
  | fuel + 1, s =>
    match step s with
    | Sum.inl v => v
    | Sum.inr s2 => iterE step fuel s2

/-- Iterator for the in-place `for` loops of the source that cannot panic. -/
def iterP (step : List Nat → List Nat ⊕ List Nat) : Nat → List Nat → List Nat
  | 0, s => s
  | fuel + 1, s =>
    match step s with
    | Sum.inl v => v
    | Sum.inr s2 => iterP step fuel s2

/-- For a strictly shrinking step function the fuel is irrelevant once it
exceeds the string length. -/
theorem iterE_congr (step : List Nat → Option (List Nat) ⊕ List Nat)
    (hdec : ∀ s s2, step s = Sum.inr s2 → s2.length < s.length) :
    ∀ f1 f2 s, s.length < f1 → s.length < f2 → iterE step f1 s = iterE step f2 s := by
  intro f1
  induction f1 with
  | zero => intro f2 s h1 h2; omega
  | succ n ih =>
    intro f2 s h1 h2
    match f2, h2 with
    | m + 1, h2 =>
      show iterE step (n + 1) s = iterE step (m + 1) s
      unfold iterE
      cases hstep : step s with
      | inl v => simp
      | inr s2 =>
        simp only
        have := hdec s s2 hstep
        exact ih m s2 (by omega) (by omega)

/-- For a strictly shrinking step function the fuel is irrelevant once it
exceeds the string length. -/
theorem iterP_congr (step : List Nat → List Nat ⊕ List Nat)
    (hdec : ∀ s s2, step s = Sum.inr s2 → s2.length < s.length) :
    ∀ f1 f2 s, s.length < f1 → s.length < f2 → iterP step f1 s = iterP step f2 s := by
  intro f1
  induction f1 with
  | zero => intro f2 s h1 h2; omega
  | succ n ih =>
    intro f2 s h1 h2
    match f2, h2 with
    | m + 1, h2 =>
      show iterP step (n + 1) s = iterP step (m + 1) s
      unfold iterP
      cases hstep : step s with
      | inl v => simp
      | inr s2 =>
        simp only
        have := hdec s s2 hstep
        exact ih m s2 (by omega) (by omega)

/-- Helper for the shrink proofs: cutting `[a, b)` out of a list shortens it. -/
theorem cut_length_lt (s : List Nat) (a b : Nat) (hab : a < b) (hb : b ≤ s.length) :
    (s.take a ++ s.drop b).length < s.length := by
  rw [List.length_append, List.length_take, List.length_drop]
  omega

theorem toLower_length (s : List Nat) : (toLower s).length = s.length := by
  simp [toLower]

/-- Single-byte escaping table of Go `html.EscapeString` (it replaces the five
bytes amp, apostrophe, lt, gt, quote). -/
def escapeByte (b : Nat) : List Nat :=
  if b = 38 then ascii ("&amp;")
  else if b = 39 then ascii ("&#39;")
  else if b = 60 then ascii ("&lt;")
  else if b = 62 then ascii ("&gt;")
  else if b = 34 then ascii ("&#34;")
  else [b]

/-- Embedding of Go `html.EscapeString`. -/
def escapeString (s : List Nat) : List Nat := s.foldr (fun b acc => escapeByte b ++ acc) []

/-- ASCII whitespace test used by Go `strings.TrimSpace` (Unicode spaces agree
with this on ASCII input). -/
def isSpaceB (b : Nat) : Bool := b = 32 || b = 9 || b = 10 || b = 13 || b = 11 || b = 12

/-- Embedding of Go `strings.TrimSpace` (ASCII behaviour). -/
def trimSpace (s : List Nat) : List Nat :=
  ((s.dropWhile isSpaceB).reverse.dropWhile isSpaceB).reverse

/-- The ellipsis marker `...` the source appends after truncating. -/
def dots : List Nat := ascii ("...")

def patStyleOpen : List Nat := ascii ("<style")

/-- The raw Go literal backslash-u003cstyle searched as a fallback. -/
def patStyleOpenLit : List Nat := ascii ("\\u003cstyle")

def patGt : List Nat := ascii (">")

def patLt : List Nat := ascii ("<")

def patStyleClose : List Nat := ascii ("</style>")

/-- The raw Go literal backslash-u003c/style-backslash-003e (17 bytes; the
source nevertheless adds 18 to skip it). -/
def patStyleCloseLit : List Nat := ascii ("\\u003c/style\\003e")

def patStyleAttr : List Nat := ascii (" style=")

def patCommentOpen : List Nat := ascii ("<!--")

def patCommentClose : List Nat := ascii ("-->")

def preOpen : List Nat := ascii ("<pre>")

def preClose : List Nat := ascii ("</pre>")

/-- The fixed presentation-attribute deny list of `removeCSS`, in source
order. -/
def cssAttributes : List (List Nat) :=
  [ascii (" class="), ascii (" id="), ascii (" bgcolor="), ascii (" width="),
   ascii (" height="), ascii (" align="), ascii (" valign="), ascii (" border="),
   ascii (" cellpadding="), ascii (" cellspacing="), ascii (" color="),
   ascii (" face="), ascii (" size="), ascii (" charset=")]

/-- The orphaned attribute-value patterns `removeCSS` deletes at the end. -/
def orphanedPatterns : List (List Nat) :=
  [ascii ("=\"utf-8\""), ascii ("=\"UTF-8\""), ascii ("=\"text/html\""),
   ascii ("=\"text/css\""), ascii ("=\"application/")]

/-- One iteration of the style-block removal loop of `removeCSS`
(generator.go lines 482-516).  `Sum.inl none` marks the two slice
expressions whose index arithmetic can exceed the string length, where Go
panics. -/
def styleBlockStep (result : List Nat) : Option (List Nat) ⊕ List Nat :=
  match goIndex (toLower result) patStyleOpen <|> goIndex (toLower result) patStyleOpenLit with
  | none => Sum.inl (some result)
  | some styleStart =>
    match goIndex (result.drop styleStart) patGt <|> goIndex (toLower result) (ascii ("\\u003e")) with
    | none => Sum.inl (some result)
    | some te =>
      if result.length < te + styleStart + 1 then Sum.inl none
      else
        match goIndex (toLower (result.drop (te + styleStart + 1))) patStyleClose with
        | some se => Sum.inr (result.take styleStart ++ result.drop (se + (te + styleStart + 1) + 8))
        | none =>
          match goIndex (toLower result) patStyleCloseLit with
          | none => Sum.inl (some (result.take styleStart ++ result.drop (te + styleStart + 1)))
          | some se0 =>
            if result.length < se0 + (te + styleStart + 1) + 18 then Sum.inl none
            else Sum.inr (result.take styleStart ++ result.drop (se0 + (te + styleStart + 1) + 18))

/-- One iteration of the inline `style=` attribute removal loop of
`removeCSS` (generator.go lines 520-560).  When the attribute value has no
closing quote and no `>` follows, the source truncates to the attribute
start and then slices `result[quoteEnd:]` past the new end: a run-time
panic, embedded as `Sum.inl none`. -/
def styleAttrStep (result : List Nat) : Option (List Nat) ⊕ List Nat :=
  match goIndex (toLower result) patStyleAttr with
  | none => Sum.inl (some result)
  | some sas =>
    if result.length ≤ sas + 7 then Sum.inl (some result)
    else
      if result.getD (sas + 7) 0 = 34 ∨ result.getD (sas + 7) 0 = 39 then
        match goIndex (result.drop (sas + 7 + 1)) [result.getD (sas + 7) 0] with
        | some qe => Sum.inr (result.take sas ++ result.drop (qe + (sas + 7) + 2))
        | none =>
          match goIndex (result.drop sas) patGt with
          | some lineEnd => Sum.inl (some (result.take sas ++ result.drop (sas + lineEnd)))
          | none => Sum.inl none
      else Sum.inr (result.take sas ++ result.drop (sas + 1))

/-- One iteration of the deny-list attribute removal loop of `removeCSS`
(generator.go lines 580-616), for one attribute pattern.  This loop guards
all its slices correctly and cannot panic. -/
def cssAttrStep (attrPat : List Nat) (result : List Nat) : List Nat ⊕ List Nat :=
  match goIndex (toLower result) attrPat with
  | none => Sum.inl result
  | some astart =>
    if result.length ≤ astart + attrPat.length then Sum.inl result
    else
      if result.getD (astart + attrPat.length) 0 = 34 ∨ result.getD (astart + attrPat.length) 0 = 39 then
        match goIndex (result.drop (astart + attrPat.length + 1)) [result.getD (astart + attrPat.length) 0] with
        | some qe => Sum.inr (result.take astart ++ result.drop (qe + (astart + attrPat.length) + 2))
        | none =>
          match goIndex (result.drop astart) patGt with
          | none => Sum.inl (result.take astart)
          | some te => Sum.inl (result.take astart ++ result.drop (astart + te))
      else Sum.inr (result.take astart ++ result.drop (astart + 1))

/-- One iteration of the HTML comment removal loop of `removeCSS`
(generator.go lines 619-634). -/
def commentStep (result : List Nat) : List Nat ⊕ List Nat :=
  match goIndex result patCommentOpen with
  | none => Sum.inl result
  | some cs =>
    match goIndex (result.drop cs) patCommentClose with
    | none => Sum.inl (result.take cs)
    | some ce => Sum.inr (result.take cs ++ result.drop (cs + ce + 3))

theorem styleBlockStep_dec (s s2 : List Nat) (h : styleBlockStep s = Sum.inr s2) :
    s2.length < s.length := by
  unfold styleBlockStep at h
  split at h
  · simp at h
  case _ ss h1 =>
    split at h
    · simp at h
    case _ te h2 =>
      split at h
      · simp at h
      case _ h3 =>
        split at h
        case _ se h4 =>
          cases h
          have hb := goIndex_some_le _ _ _ h4
          rw [toLower_length, List.length_drop] at hb
          have h8 : patStyleClose.length = 8 := by decide
          rw [h8] at hb
          apply cut_length_lt <;> omega
        case _ h4 =>
          split at h
          · simp at h
          case _ se0 h5 =>
            split at h
            · simp at h
            case _ h6 =>
              cases h
              apply cut_length_lt <;> omega

theorem styleAttrStep_dec (s s2 : List Nat) (h : styleAttrStep s = Sum.inr s2) :
    s2.length < s.length := by
  unfold styleAttrStep at h
  split at h
  · simp at h
  case _ sas h1 =>
    split at h
    · simp at h
    case _ h2 =>
      split at h
      case _ h3 =>
        split at h
        case _ qe h4 =>
          cases h
          have hb := goIndex_some_le _ _ _ h4
          rw [List.length_drop] at hb
          simp only [List.length_cons, List.length_nil] at hb
          apply cut_length_lt <;> omega
        case _ h4 =>
          split at h <;> simp at h
      case _ h3 =>
        cases h
        apply cut_length_lt <;> omega

theorem cssAttrStep_dec (attrPat : List Nat) (s s2 : List Nat)
    (h : cssAttrStep attrPat s = Sum.inr s2) : s2.length < s.length := by
  unfold cssAttrStep at h
  split at h
  · simp at h
  case _ astart h1 =>
    split at h
    · simp at h
    case _ h2 =>
      split at h
      case _ h3 =>
        split at h
        case _ qe h4 =>
          cases h
          have hb := goIndex_some_le _ _ _ h4
          rw [List.length_drop] at hb
          simp only [List.length_cons, List.length_nil] at hb
          apply cut_length_lt <;> omega
        case _ h4 =>
          split at h <;> simp at h
      case _ h3 =>
        cases h
        apply cut_length_lt <;> omega

theorem commentStep_dec (s s2 : List Nat) (h : commentStep s = Sum.inr s2) :
    s2.length < s.length := by
  unfold commentStep at h
  split at h
  · exact absurd h (by simp)
  case _ cs hcs =>
    split at h
    · exact absurd h (by simp)
    case _ ce hce =>
      cases h
      have := goIndex_some_le _ _ _ hce
      rw [List.length_drop] at this
      have h3 : patCommentClose.length = 3 := by decide
      rw [h3] at this
      exact cut_length_lt s _ _ (by omega) (by omega)

/-- The style-block removal loop of `removeCSS`. -/
def styleBlockLoop (s : List Nat) : Option (List Nat) := iterE styleBlockStep (s.length + 1) s

/-- The inline `style=` attribute removal loop of `removeCSS`. -/
def styleAttrLoop (s : List Nat) : Option (List Nat) := iterE styleAttrStep (s.length + 1) s

/-- The deny-list attribute removal loop of `removeCSS` for one pattern. -/
def cssAttrLoop (attrPat s : List Nat) : List Nat := iterP (cssAttrStep attrPat) (s.length + 1) s

/-- The HTML comment removal loop of `removeCSS`. -/
def commentLoop (s : List Nat) : List Nat := iterP commentStep (s.length + 1) s

/-- Embedding of `RSSConfig` (generator.go lines 20-30).  The length limits
come from the configuration file and are non-negative, embedded as `Nat`. -/
structure RSSConfig where
  OutputDir : List Nat
  Title : List Nat
  BaseURL : List Nat
  MaxHTMLContentLength : Nat
  MaxTextContentLength : Nat
  MaxRSSHTMLLength : Nat
  MaxRSSTextLength : Nat
  MaxSummaryLength : Nat
  RemoveCSS : Bool

/-- Embedding of `Generator.removeCSS` (generator.go lines 471-652): style
blocks, inline `style=` attributes, the fixed attribute deny list, HTML
comments, then the orphaned attribute-value patterns.  `none` embeds the
run-time panics reachable in the first two loops. -/
def removeCSS (cfg : RSSConfig) (htmlContent : List Nat) : Option (List Nat) :=
  if cfg.RemoveCSS = false then some htmlContent
  else
    match styleBlockLoop htmlContent with
    | none => none
    | some r1 =>
      match styleAttrLoop r1 with
      | none => none
      | some r2 =>
        some (orphanedPatterns.foldl (fun r p => replaceAll r p [])
          (commentLoop (cssAttributes.foldl (fun r a => cssAttrLoop a r) r2)))

/-- The HTML sniffing test of `processContent` (generator.go lines 243-246):
the lowered content contains one of four HTML markers. -/
def isHTMLDetect (content : List Nat) : Bool :=
  goContains (toLower content) (ascii ("<html")) ||
  goContains (toLower content) (ascii ("<body")) ||
  goContains (toLower content) (ascii ("<div")) ||
  goContains (toLower content) (ascii ("<p>"))

/-- Embedding of `Generator.processContent` (generator.go lines 234-280),
the RSS description builder.  The stubbed AI hook returns its input, so the
`summary` argument of the source is the chosen body itself. -/
def processContent (cfg : RSSConfig) (content : List Nat) : Option (List Nat) :=
  if content.length = 0 then some []
  else if isHTMLDetect content then
    match removeCSS cfg content with
    | none => none
    | some processedHTML =>
      if cfg.MaxRSSHTMLLength < processedHTML.length then
        some (processedHTML.take cfg.MaxRSSHTMLLength ++ dots)
      else some processedHTML
  else
    if cfg.MaxRSSTextLength + 11 < (preOpen ++ escapeString content ++ preClose).length then
      some (preOpen ++
        (if cfg.MaxRSSTextLength < (escapeString content).length then
          (escapeString content).take cfg.MaxRSSTextLength ++ dots
        else escapeString content) ++ preClose)
    else some (preOpen ++ escapeString content ++ preClose)

/-- Embedding of `Generator.processHTMLContent` (generator.go lines 371-388). -/
def processHTMLContent (cfg : RSSConfig) (content : List Nat) : Option (List Nat) :=
  if content.length = 0 then some []
  else
    match removeCSS cfg content with
    | none => none
    | some c =>
      if cfg.MaxHTMLContentLength < c.length then
        some (c.take cfg.MaxHTMLContentLength ++ dots)
      else some c

/-- Embedding of `Generator.processTextContent` (generator.go lines 390-404);
no CSS removal is involved, the function is total. -/
def processTextContent (cfg : RSSConfig) (content : List Nat) : List Nat :=
  if content.length = 0 then []
  else
    if cfg.MaxTextContentLength < content.length then
      content.take cfg.MaxTextContentLength ++ dots
    else content

/-- Hex digit test of `Generator.isHex` (generator.go lines 310-317),
byte-wise (all hex digits are ASCII). -/
def isHexB (b : Nat) : Bool :=
  (48 ≤ b && b ≤ 57) || (65 ≤ b && b ≤ 70) || (97 ≤ b && b ≤ 102)

/-- Hex digit value per `Generator.hexToInt` (generator.go lines 319-334). -/
def hexVal (b : Nat) : Nat :=
  if 48 ≤ b && b ≤ 57 then b - 48
  else if 65 ≤ b && b ≤ 70 then b - 65 + 10
  else if 97 ≤ b && b ≤ 102 then b - 97 + 10
  else 0

/-- The byte scan of `decodeQuotedPrintable` (generator.go lines 288-305):
a 61 (the equals sign) followed by at least two bytes decodes when both are
hex digits, otherwise it is kept literally and the scan moves one byte. -/
def qpScan : List Nat → List Nat
  | [] => []
  | 61 :: h1 :: h2 :: rest =>
    if isHexB h1 && isHexB h2 then (16 * hexVal h1 + hexVal h2) :: qpScan rest
    else 61 :: qpScan (h1 :: h2 :: rest)
  | b :: rest => b :: qpScan rest

/-- Embedding of `Generator.decodeQuotedPrintable` (generator.go lines
282-308): two `ReplaceAll` passes deleting the soft line breaks, then the
hex scan. -/
def decodeQuotedPrintable (input : List Nat) : List Nat :=
  qpScan (replaceAll (replaceAll input (ascii ("=\r\n")) []) (ascii ("=\n")) [])

/-- One iteration of the residual tag-removal loop of `Generator.stripHTML`
(generator.go lines 420-427). -/
def stripTagsStep (result : List Nat) : List Nat ⊕ List Nat :=
  match goIndex result patLt, goIndex result patGt with
  | some st, some _ =>
    (match goIndex (result.drop st) patGt with
     | none => Sum.inl result
     | some en => Sum.inr (result.take st ++ result.drop (st + en + 1)))
  | _, _ => Sum.inl result

theorem stripTagsStep_dec (s s2 : List Nat) (h : stripTagsStep s = Sum.inr s2) :
    s2.length < s.length := by
  unfold stripTagsStep at h
  split at h
  case _ st g hst hgt =>
    split at h
    · simp at h
    case _ en hen =>
      cases h
      have hb := goIndex_some_le _ _ _ hen
      rw [List.length_drop] at hb
      have h1 : patGt.length = 1 := by decide
      rw [h1] at hb
      apply cut_length_lt <;> omega
  · simp at h

/-- Embedding of `Generator.stripHTML` (generator.go lines 406-433). -/
def stripHTML (h : List Nat) : List Nat :=
  trimSpace (iterP stripTagsStep
    ((replaceAll (replaceAll (replaceAll (replaceAll (replaceAll h
        (ascii ("<pre>")) []) (ascii ("</pre>")) [])
        (ascii ("<br>")) (ascii ("\n"))) (ascii ("<br/>")) (ascii ("\n")))
        (ascii ("<br />")) (ascii ("\n"))).length + 1)
    (replaceAll (replaceAll (replaceAll (replaceAll (replaceAll h
        (ascii ("<pre>")) []) (ascii ("</pre>")) [])
        (ascii ("<br>")) (ascii ("\n"))) (ascii ("<br/>")) (ascii ("\n")))
        (ascii ("<br />")) (ascii ("\n"))))

/-- Embedding of `Generator.createSummaryFromText` (generator.go lines
435-468): first five non-empty trimmed lines joined by a space, with the
ellipsis appended when five lines were collected or the joined string
exceeds the summary limit. -/
def createSummaryFromText (cfg : RSSConfig) (text : List Nat) : List Nat :=
  if text = [] then []
  else
    if 5 ≤ ((((text.splitOn 10).map trimSpace).filter (fun l => l ≠ [])).take 5).length ∨
        cfg.MaxSummaryLength <
          (List.intercalate (ascii (" "))
            ((((text.splitOn 10).map trimSpace).filter (fun l => l ≠ [])).take 5)).length then
      (if cfg.MaxSummaryLength <
          (List.intercalate (ascii (" "))
            ((((text.splitOn 10).map trimSpace).filter (fun l => l ≠ [])).take 5)).length then
        (List.intercalate (ascii (" "))
          ((((text.splitOn 10).map trimSpace).filter (fun l => l ≠ [])).take 5)).take
            cfg.MaxSummaryLength
      else
        List.intercalate (ascii (" "))
          ((((text.splitOn 10).map trimSpace).filter (fun l => l ≠ [])).take 5)) ++ dots
    else
      List.intercalate (ascii (" "))
        ((((text.splitOn 10).map trimSpace).filter (fun l => l ≠ [])).take 5)

/-- Embedding of `rss.EmailMessage` (generator.go lines 32-39).  `Date` is a
timestamp embedded as `Nat` (chronological order is all the source uses). -/
structure EmailMessage where
  UID : Nat
  Subject : List Nat
  From : List Nat
  Date : Nat
  TextBody : List Nat
  HTMLBody : List Nat
deriving DecidableEq

/-- Decimal digits of a `Nat`, for the `%d` format verbs of the source. -/
def natToBytes (n : Nat) : List Nat := (Nat.toDigits 10 n).map Char.toNat

/-- The feed item GUID format `%s_%d` of `folder` and the message UID
(generator.go lines 123 and 198). -/
def goID (folder : List Nat) (uid : Nat) : List Nat := folder ++ [95] ++ natToBytes uid

/-- The item link format `%s/message/%d` (generator.go lines 119 and 199). -/
def goURL (cfg : RSSConfig) (uid : Nat) : List Nat :=
  cfg.BaseURL ++ ascii ("/message/") ++ natToBytes uid

/-- One item of the `feeds.Feed` built by `GenerateFeed` (generator.go lines
117-124). -/
structure RSSItem where
  title : List Nat
  link : List Nat
  description : List Nat
  authorName : List Nat
  created : Nat
  id : List Nat
deriving DecidableEq

/-- Embedding of the per-message item construction of `Generator.GenerateFeed`
(generator.go lines 94-127), with the stub AI hook (`SummarizeMessage`
returns the body, lines 45-49), so the summarized content is the preferred
body itself.  `none` embeds a run-time panic inside `processContent`. -/
def buildRSSItem (cfg : RSSConfig) (folder : List Nat) (m : EmailMessage) : Option RSSItem :=
  match processContent cfg (if m.HTMLBody ≠ [] then m.HTMLBody else m.TextBody) with
  | none => none
  | some processedContent =>
    some { title := m.Subject, link := goURL cfg m.UID, description := processedContent,
           authorName := m.From, created := m.Date, id := goID folder m.UID }

/-- The item list of `GenerateFeed`, in the order of the message slice (the
loop appends; no sorting happens anywhere in the generator). -/
def buildRSSItems (cfg : RSSConfig) (folder : List Nat) : List EmailMessage → Option (List RSSItem)
  | [] => some []
  | m :: ms =>
    match buildRSSItem cfg folder m with
    | none => none
    | some i =>
      match buildRSSItems cfg folder ms with
      | none => none
      | some rest => some (i :: rest)

/-- One `JSONItem` of the JSON Feed (generator.go lines 61-70 and 197-210). -/
structure JSONItemM where
  id : List Nat
  url : List Nat
  title : List Nat
  contentHTML : List Nat
  contentText : List Nat
  summary : List Nat
  datePublished : Nat
  authorName : List Nat
deriving DecidableEq

/-- Embedding of the per-message item construction of
`Generator.GenerateJSONFeed` (generator.go lines 161-213), with the stub AI
hook: per-type processing, cross-derivation of the missing representation,
and the summary from the final text content. -/
def buildJSONItem (cfg : RSSConfig) (folder : List Nat) (m : EmailMessage) : Option JSONItemM :=
  match (if m.HTMLBody ≠ [] then processHTMLContent cfg m.HTMLBody else some []) with
  | none => none
  | some contentHTML0 =>
    match (if m.TextBody ≠ [] then processTextContent cfg m.TextBody else []) with
    | contentText0 =>
      match (if contentHTML0 = [] ∧ contentText0 ≠ [] then
               (preOpen ++ escapeString contentText0 ++ preClose, contentText0)
             else if contentText0 = [] ∧ contentHTML0 ≠ [] then
               (contentHTML0, stripHTML contentHTML0)
             else (contentHTML0, contentText0)) with
      | (contentHTML, contentText) =>
        some { id := goID folder m.UID, url := goURL cfg m.UID, title := m.Subject,
               contentHTML := contentHTML, contentText := contentText,
               summary := if contentText ≠ [] then createSummaryFromText cfg contentText else [],
               datePublished := m.Date, authorName := m.From }

/-- The item list of `GenerateJSONFeed`, in the order of the message slice. -/
def buildJSONItems (cfg : RSSConfig) (folder : List Nat) : List EmailMessage → Option (List JSONItemM)
  | [] => some []
  | m :: ms =>
    match buildJSONItem cfg folder m with
    | none => none
    | some i =>
      match buildJSONItems cfg folder ms with
      | none => none
      | some rest => some (i :: rest)

/-- Filesystem actions attempted by the feed generators.  `os.WriteFile` is a
direct whole-file write to the given path; a write-then-rename discipline
would show up as a write to a temporary path followed by `renameFile`.  The
serialized bytes come from the external feeds/json libraries, so the write
effects carry the item lists being serialized. -/
inductive FSEffect
  | mkdirAll (dir : List Nat)
  | writeRSSFile (path : List Nat) (items : List RSSItem)
  | writeJSONFile (path : List Nat) (items : List JSONItemM)
  | renameFile (src dst : List Nat)
deriving DecidableEq

/-- Output path `filepath.Join(OutputDir, feedName + ".xml")` of
`GenerateFeed` (generator.go line 133). -/
def feedPathXML (cfg : RSSConfig) (feedName : List Nat) : List Nat :=
  cfg.OutputDir ++ [47] ++ feedName ++ ascii (".xml")

/-- Output path `filepath.Join(OutputDir, feedName + ".json")` of
`GenerateJSONFeed` (generator.go line 219). -/
def feedPathJSON (cfg : RSSConfig) (feedName : List Nat) : List Nat :=
  cfg.OutputDir ++ [47] ++ feedName ++ ascii (".json")

/-- The filesystem actions of `Generator.GenerateFeed` (generator.go lines
129-144): `os.MkdirAll` on the output directory, then a single direct
`os.WriteFile` of the rendered document at its final path.  `none` embeds a
run-time panic while the items are built. -/
def generateFeedEffects (cfg : RSSConfig) (folder feedName : List Nat)
    (messages : List EmailMessage) : Option (List FSEffect) :=
  match buildRSSItems cfg folder messages with
  | none => none
  | some items =>
    some [FSEffect.mkdirAll cfg.OutputDir, FSEffect.writeRSSFile (feedPathXML cfg feedName) items]

/-- The filesystem actions of `Generator.GenerateJSONFeed` (generator.go
lines 215-231), same discipline with the `.json` path. -/
def generateJSONFeedEffects (cfg : RSSConfig) (folder feedName : List Nat)
    (messages : List EmailMessage) : Option (List FSEffect) :=
  match buildJSONItems cfg folder messages with
  | none => none
  | some items =>
    some [FSEffect.mkdirAll cfg.OutputDir, FSEffect.writeJSONFile (feedPathJSON cfg feedName) items]

/-- One row of the `processed_messages` table (error_test.go lines 286-294
and 319-338); the key is `(folder, uid)` (UNIQUE constraint).  Timestamps
are embedded as `Nat`; the stored rows of one database keep one format, so
the SQL MAX over them is the chronological maximum. -/
structure DBRec where
  folder : List Nat
  uid : Nat
  subject : List Nat
  fromAddr : List Nat
  date : Nat
deriving DecidableEq

/-- Embedding of `DB.IsMessageProcessed` (error_test.go lines 340-350):
`COUNT(*) > 0` over the rows with this folder and uid. -/
def isMessageProcessed (db : List DBRec) (folder : List Nat) (uid : Nat) : Bool :=
  db.any (fun r => r.folder == folder && r.uid == uid)

/-- Embedding of `DB.MarkMessageProcessed` (error_test.go lines 352-364):
`INSERT OR REPLACE` keyed by `(folder, uid)` deletes the conflicting row and
inserts the new one. -/
def markMessageProcessed (db : List DBRec) (folder : List Nat) (uid : Nat)
    (subject fromAddr : List Nat) (date : Nat) : List DBRec :=
  db.filter (fun r => !(r.folder == folder && r.uid == uid)) ++
    [{ folder := folder, uid := uid, subject := subject, fromAddr := fromAddr, date := date }]

/-- Embedding of `DB.ClearFolderHistory` (error_test.go lines 394-403):
`DELETE FROM processed_messages WHERE folder = ?`; the statement succeeds
whether or not rows match. -/
def clearFolderHistory (db : List DBRec) (folder : List Nat) : List DBRec :=
  db.filter (fun r => !(r.folder == folder))

/-- Embedding of `DB.GetLastProcessedDate` (error_test.go lines 405-427):
`SELECT MAX(date) WHERE folder = ?`, the zero value when no row matches. -/
def getLastProcessedDate (db : List DBRec) (folder : List Nat) : Nat :=
  ((db.filter (fun r => r.folder == folder)).map DBRec.date).foldr max 0

/-- Header fields of one IMAP message as listed by `GetMessages`. -/
structure IMAPMessage where
  uid : Nat
  subject : List Nat
  fromAddr : List Nat
  date : Nat
deriving DecidableEq

/-- Body parts of one message as fetched by `GetMessageContent`. -/
structure MessageContent where
  textBody : List Nat
  htmlBody : List Nat
deriving DecidableEq

/-- Sequential linearization of `Processor.processMessagesAsync` (part_004
lines 126-230): per message, skip it when the ledger already has it,
otherwise fetch the content (a fetch failure substitutes empty content and
continues), mark the message processed, and collect it.  The bounded worker
pool gathers results in completion order; the input order is one
linearization, and the collected set and final ledger state do not depend on
the interleaving.  Ledger read/write failures of the storage engine are
outside the pure model. -/
def processMessages (db : List DBRec) (folderPath : List Nat)
    (fetch : Nat → Option MessageContent) :
    List IMAPMessage → List EmailMessage × List DBRec
  | [] => ([], db)
  | msg :: rest =>
    if isMessageProcessed db folderPath msg.uid then
      processMessages db folderPath fetch rest
    else
      match processMessages
          (markMessageProcessed db folderPath msg.uid msg.subject msg.fromAddr msg.date)
          folderPath fetch rest with
      | (restMsgs, dbF) =>
        ({ UID := msg.uid, Subject := msg.subject, From := msg.fromAddr, Date := msg.date,
           TextBody := (match fetch msg.uid with | some c => c | none => ⟨[], []⟩).textBody,
           HTMLBody := (match fetch msg.uid with | some c => c | none => ⟨[], []⟩).htmlBody }
          :: restMsgs, dbF)

/-- Result of one folder pass: the ledger state after the pass and, when the
pass generated feeds, both item lists (RSS and JSON). -/
structure PassResult where
  db : List DBRec
  feeds : Option (List RSSItem × List JSONItemM)
deriving DecidableEq

/-- Embedding of `Processor.processFolder` (part_004 lines 74-114): read the
watermark, list the candidates since it (`listMsgs` embeds the IMAP
capability), process them, and when at least one message is new build both
feed documents from exactly those new messages (the source notes in a TODO
that older ledgered messages are not included); with no new messages the
feeds are not regenerated.  `none` embeds a run-time panic during content
processing. -/
def processFolder (cfg : RSSConfig) (db0 : List DBRec) (folderPath : List Nat)
    (listMsgs : Nat → List IMAPMessage) (fetch : Nat → Option MessageContent) :
    Option PassResult :=
  match processMessages db0 folderPath fetch (listMsgs (getLastProcessedDate db0 folderPath)) with
  | (newMessages, db1) =>
    if newMessages = [] then some { db := db1, feeds := none }
    else
      match buildRSSItems cfg folderPath newMessages with
      | none => none
      | some r =>
        match buildJSONItems cfg folderPath newMessages with
        | none => none
        | some j => some { db := db1, feeds := some (r, j) }

/-- Embedding of `Processor.ResetFolder` (part_004 lines 116-123): clear the
folder history and nothing else. -/
def resetFolder (db : List DBRec) (folderPath : List Nat) : List DBRec :=
  clearFolderHistory db folderPath

/-- Dates of the rows of one folder, the multiset `MAX(date)` ranges over. -/
def folderDates (db : List DBRec) (folder : List Nat) : List Nat :=
  (db.filter (fun r => r.folder == folder)).map DBRec.date

/-- One `MarkMessageProcessed` call's data. -/
structure MarkData where
  uid : Nat
  subject : List Nat
  fromAddr : List Nat
  date : Nat
deriving DecidableEq

/-- Marking a batch of messages in order, as the orchestrator does. -/
def applyMarks (db : List DBRec) (folder : List Nat) : List MarkData → List DBRec
  | [] => db
  | m :: ms =>
    applyMarks (markMessageProcessed db folder m.uid m.subject m.fromAddr m.date) folder ms

theorem getLastProcessedDate_eq_fold (db : List DBRec) (folder : List Nat) :
    getLastProcessedDate db folder = (folderDates db folder).foldr max 0 := rfl

/-- An upsert whose key is fresh in the table appends the row. -/
theorem mark_fresh_append (db : List DBRec) (folder : List Nat) (uid : Nat)
    (subject fromAddr : List Nat) (date : Nat)
    (hfresh : ∀ r ∈ db, ¬(r.folder = folder ∧ r.uid = uid)) :
    markMessageProcessed db folder uid subject fromAddr date =
      db ++ [{ folder := folder, uid := uid, subject := subject,
               fromAddr := fromAddr, date := date }] := by
  unfold markMessageProcessed
  congr 1
  apply List.filter_eq_self.mpr
  intro r hr
  have := hfresh r hr
  simp only [Bool.not_eq_eq_eq_not, Bool.not_true, Bool.and_eq_false_imp]
  intro hf
  rw [beq_iff_eq] at hf
  rw [beq_eq_false_iff_ne]
  intro hu
  exact this ⟨hf, hu⟩

theorem folderDates_append_one (db : List DBRec) (folder : List Nat) (r : DBRec)
    (hf : r.folder = folder) :
    folderDates (db ++ [r]) folder = folderDates db folder ++ [r.date] := by
  unfold folderDates
  rw [List.filter_append, List.map_append]
  congr 1
  simp [hf]

/-- Marking a batch of distinct-uid messages into a table whose rows never
collide with them appends exactly their dates to the folder's date column. -/
theorem applyMarks_folderDates (folder : List Nat) :
    ∀ (ms : List MarkData) (db : List DBRec),
      (ms.map MarkData.uid).Nodup →
      (∀ r ∈ db, r.folder = folder → r.uid ∉ ms.map MarkData.uid) →
      folderDates (applyMarks db folder ms) folder =
        folderDates db folder ++ ms.map MarkData.date := by
  intro ms
  induction ms with
  | nil => intro db _ _; simp [applyMarks]
  | cons m ms ih =>
    intro db hnodup hinv
    rw [List.map_cons, List.nodup_cons] at hnodup
    have hfresh : ∀ r ∈ db, ¬(r.folder = folder ∧ r.uid = m.uid) := by
      intro r hr ⟨hf, hu⟩
      exact hinv r hr hf (by simp [hu])
    unfold applyMarks
    rw [mark_fresh_append db folder m.uid m.subject m.fromAddr m.date hfresh]
    rw [ih (db ++ [_]) hnodup.2]
    · rw [folderDates_append_one _ _ _ rfl]
      simp
    · intro r hr hf
      rcases List.mem_append.mp hr with hrd | hrr
      · have := hinv r hrd hf
        simp only [List.map_cons, List.mem_cons] at this
        intro hmem
        exact this (Or.inr hmem)
      · have : r.uid = m.uid := by
          simp only [List.mem_singleton] at hrr
          rw [hrr]
        rw [this]
        exact hnodup.1

/-- Folding `max` over a list is invariant under permutation. -/
theorem foldr_max_perm (l1 l2 : List Nat) (h : l1.Perm l2) :
    l1.foldr max 0 = l2.foldr max 0 := by
  induction h with
  | nil => rfl
  | cons x _ ih => simp [ih]
  | swap x y l => simp [Nat.max_left_comm]
  | trans _ _ ih1 ih2 => exact ih1.trans ih2

/-- C8: for a folder with no prior records, after marking any batch of
distinct messages the last-seen-timestamp query returns the maximum of the
marked timestamps (so T3 for timestamps T1 < T2 < T3 inserted in any
order), the same value for every insertion order, and the zero value for a
folder with no records. -/
theorem c8_watermark_max (folder : List Nat) (marks marks2 : List MarkData)
    (db0 : List DBRec)
    (hfresh : ∀ r ∈ db0, r.folder ≠ folder)
    (hnodup : (marks.map MarkData.uid).Nodup)
    (hperm : marks.Perm marks2) :
    getLastProcessedDate (applyMarks db0 folder marks) folder =
        (marks.map MarkData.date).foldr max 0
    ∧ getLastProcessedDate (applyMarks db0 folder marks2) folder =
        (marks.map MarkData.date).foldr max 0
    ∧ getLastProcessedDate db0 folder = 0 := by
  have hempty : folderDates db0 folder = [] := by
    unfold folderDates
    rw [List.filter_eq_nil_iff.mpr, List.map_nil]
    intro r hr
    simp only [beq_iff_eq]
    exact hfresh r hr
  have hbase : ∀ r ∈ db0, r.folder = folder → False := by
    intro r hr hf
    exact hfresh r hr hf
  refine ⟨?_, ?_, ?_⟩
  · rw [getLastProcessedDate_eq_fold,
      applyMarks_folderDates folder marks db0 hnodup (fun r hr hf => absurd hf (hfresh r hr)),
      hempty, List.nil_append]
  · have hnodup2 : (marks2.map MarkData.uid).Nodup := (hperm.map MarkData.uid).nodup_iff.mp hnodup
    rw [getLastProcessedDate_eq_fold,
      applyMarks_folderDates folder marks2 db0 hnodup2 (fun r hr hf => absurd hf (hfresh r hr)),
      hempty, List.nil_append]
    exact (foldr_max_perm _ _ (hperm.map MarkData.date)).symm
  · rw [getLastProcessedDate_eq_fold, hempty]
    rfl

/-- Witness for C8 at the concrete scenario of the spec: timestamps
[T1, T3, T2] = [1, 3, 2] marked in that order, and in another order, both
give 3; the empty ledger gives 0. -/
theorem c8_watermark_max_witness :
    getLastProcessedDate
        (applyMarks [] (ascii ("INBOX"))
          [{ uid := 1, subject := [], fromAddr := [], date := 1 },
           { uid := 2, subject := [], fromAddr := [], date := 3 },
           { uid := 3, subject := [], fromAddr := [], date := 2 }]) (ascii ("INBOX")) = 3
    ∧ getLastProcessedDate
        (applyMarks [] (ascii ("INBOX"))
          [{ uid := 3, subject := [], fromAddr := [], date := 2 },
           { uid := 1, subject := [], fromAddr := [], date := 1 },
           { uid := 2, subject := [], fromAddr := [], date := 3 }]) (ascii ("INBOX")) = 3
    ∧ getLastProcessedDate [] (ascii ("INBOX")) = 0 := by
  obtain ⟨h1, h2, h3⟩ := c8_watermark_max (ascii ("INBOX"))
    [{ uid := 1, subject := [], fromAddr := [], date := 1 },
     { uid := 2, subject := [], fromAddr := [], date := 3 },
     { uid := 3, subject := [], fromAddr := [], date := 2 }]
    [{ uid := 3, subject := [], fromAddr := [], date := 2 },
     { uid := 1, subject := [], fromAddr := [], date := 1 },
     { uid := 2, subject := [], fromAddr := [], date := 3 }]
    [] (by simp) (by decide) (by decide)
  exact ⟨h1.trans (by decide), h2.trans (by decide), h3⟩

/-- C9: after clearing a folder, no id of that folder reads as processed;
the rows (hence the processed reads) of every other folder are unchanged;
and clearing a folder that has no rows is the identity (the DELETE succeeds
with nothing to do). -/
theorem c9_clear_folder (db db2 : List DBRec) (folder folder2 : List Nat) (uid : Nat)
    (hne : folder2 ≠ folder) (hempty : ∀ r ∈ db2, r.folder ≠ folder) :
    isMessageProcessed (clearFolderHistory db folder) folder uid = false
    ∧ isMessageProcessed (clearFolderHistory db folder) folder2 uid
        = isMessageProcessed db folder2 uid
    ∧ (clearFolderHistory db folder).filter (fun r => r.folder == folder2)
        = db.filter (fun r => r.folder == folder2)
    ∧ clearFolderHistory db2 folder = db2 := by
  have hf2 : (folder == folder2) = false :=
    beq_eq_false_iff_ne.mpr (fun he => hne he.symm)
  refine ⟨?_, ?_, ?_, ?_⟩
  · unfold clearFolderHistory isMessageProcessed
    rw [List.any_eq_false]
    intro r hr
    have h2 := (List.mem_filter.mp hr).2
    rw [Bool.not_eq_eq_eq_not, Bool.not_true] at h2
    simp [h2]
  · unfold clearFolderHistory isMessageProcessed
    induction db with
    | nil => rfl
    | cons r rs ih =>
      by_cases hf : r.folder = folder
      · simp only [List.filter_cons, List.any_cons, hf, beq_self_eq_true, Bool.not_true,
          Bool.false_eq_true, if_false, hf2, Bool.false_and, Bool.false_or]
        exact ih
      · have h1 : (r.folder == folder) = false := beq_eq_false_iff_ne.mpr hf
        simp only [List.filter_cons, List.any_cons, h1, Bool.not_false, if_true]
        rw [ih]
  · unfold clearFolderHistory
    induction db with
    | nil => rfl
    | cons r rs ih =>
      by_cases hf : r.folder = folder
      · simp only [List.filter_cons, hf, beq_self_eq_true, Bool.not_true, Bool.false_eq_true,
          if_false, hf2]
        exact ih
      · have h1 : (r.folder == folder) = false := beq_eq_false_iff_ne.mpr hf
        simp only [List.filter_cons, h1, Bool.not_false, if_true]
        by_cases h2 : r.folder = folder2
        · simp only [List.filter_cons, h2, beq_self_eq_true, if_true]
          rw [ih]
        · have h3 : (r.folder == folder2) = false := beq_eq_false_iff_ne.mpr h2
          simp only [List.filter_cons, h3, Bool.false_eq_true, if_false]
          exact ih
  · apply List.filter_eq_self.mpr
    intro r hr
    rw [Bool.not_eq_eq_eq_not, Bool.not_true]
    rw [beq_eq_false_iff_ne]
    exact hempty r hr

/-- Witness for C9 on a concrete two-folder ledger. -/
theorem c9_clear_folder_witness :
    isMessageProcessed
        (clearFolderHistory
          [{ folder := ascii ("INBOX"), uid := 1, subject := [], fromAddr := [], date := 1 },
           { folder := ascii ("Sent"), uid := 1, subject := [], fromAddr := [], date := 1 }]
          (ascii ("INBOX"))) (ascii ("INBOX")) 1 = false
    ∧ isMessageProcessed
        (clearFolderHistory
          [{ folder := ascii ("INBOX"), uid := 1, subject := [], fromAddr := [], date := 1 },
           { folder := ascii ("Sent"), uid := 1, subject := [], fromAddr := [], date := 1 }]
          (ascii ("INBOX"))) (ascii ("Sent")) 1
        = isMessageProcessed
          [{ folder := ascii ("INBOX"), uid := 1, subject := [], fromAddr := [], date := 1 },
           { folder := ascii ("Sent"), uid := 1, subject := [], fromAddr := [], date := 1 }]
          (ascii ("Sent")) 1
    ∧ clearFolderHistory
        [{ folder := ascii ("Sent"), uid := 1, subject := [], fromAddr := [], date := 1 }]
        (ascii ("INBOX"))
        = [{ folder := ascii ("Sent"), uid := 1, subject := [], fromAddr := [], date := 1 }] := by
  obtain ⟨h1, h2, _, h4⟩ := c9_clear_folder
    [{ folder := ascii ("INBOX"), uid := 1, subject := [], fromAddr := [], date := 1 },
     { folder := ascii ("Sent"), uid := 1, subject := [], fromAddr := [], date := 1 }]
    [{ folder := ascii ("Sent"), uid := 1, subject := [], fromAddr := [], date := 1 }]
    (ascii ("INBOX")) (ascii ("Sent")) 1 (by decide) (by decide)
  exact ⟨h1, h2, h4⟩

/-- A soft line break per the spec wording: an equals sign immediately
followed by a line terminator (CRLF or LF). -/
def hasSoftBreak (s : List Nat) : Bool :=
  goContains s [61, 13, 10] || goContains s [61, 10]

/-- C6 counterexample: on the input `=CR =CRLF LF` (bytes [61,13,61,13,10,10])
the decoder returns `=CRLF` (bytes [61,13,10]), which still contains a soft
line break.  The first ReplaceAll pass removes the `=CRLF` occurrence at
offset 2 and never rescans the seam, so the leading `=CR` joined with the
following `LF` survives both passes, and the hex scan keeps it (13 and 10
are not hex digits).  Under the claim, the deletion phase leaves no
equals-sign-before-terminator, and the hex phase replaces `=XX` pairs or
keeps `=` literally, so on this input (which contains no hex digits at all)
no claim-conforming output can contain a soft line break: the claim is
false here. -/
theorem c6_counterexample :
    decodeQuotedPrintable [61, 13, 61, 13, 10, 10] = [61, 13, 10]
    ∧ hasSoftBreak [61, 13, 10] = true := by decide

/-- C6 as amended: decoding first deletes `=CRLF` occurrences in one
leftmost non-overlapping pass, then `=LF` occurrences in a second pass over
the result (a soft break formed at a deletion seam may survive the first
pass), then scans left to right replacing each `=` followed by two hex
digits by the byte with that value, keeping any other `=` (including one
followed by fewer than two bytes) literally, and copying every other byte;
decoding is total and never fails as a whole. -/
theorem qpScan_cons_ne (b : Nat) (hb : b ≠ 61) (rest : List Nat) :
    qpScan (b :: rest) = b :: qpScan rest := by
  rw [qpScan.eq_def]
  split <;> simp_all

theorem qpScan_single (b : Nat) : qpScan [b] = [b] := by
  by_cases hb : b = 61
  · subst hb
    rw [qpScan.eq_def]
    split <;> simp_all
    case _ heq =>
      rcases heq with ⟨rfl, rfl⟩
      rfl
  · rw [qpScan_cons_ne b hb []]
    rfl

theorem qpScan_pair (b : Nat) : qpScan [61, b] = [61, b] := by
  rw [qpScan.eq_def]
  split <;> simp_all
  case _ heq =>
    rcases heq with ⟨rfl, rfl⟩
    rw [qpScan_single]

/-- C6 as amended: decoding first deletes `=CRLF` occurrences in one
leftmost non-overlapping pass, then `=LF` occurrences in a second pass over
the result (a soft break formed at a deletion seam may survive the first
pass), then scans left to right replacing each `=` followed by two hex
digits by the byte with that value, keeping any other `=` (including one
followed by fewer than two bytes) literally, and copying every other byte;
decoding is total and never fails as a whole. -/
theorem c6_qp_phases :
    (∀ s, decodeQuotedPrintable s =
        qpScan (replaceAll (replaceAll s (ascii ("=\r\n")) []) (ascii ("=\n")) []))
    ∧ (∀ h1 h2, isHexB h1 = true → isHexB h2 = true → ∀ rest,
        qpScan (61 :: h1 :: h2 :: rest) = (16 * hexVal h1 + hexVal h2) :: qpScan rest)
    ∧ (∀ h1 h2, (isHexB h1 && isHexB h2) = false → ∀ rest,
        qpScan (61 :: h1 :: h2 :: rest) = 61 :: qpScan (h1 :: h2 :: rest))
    ∧ (∀ b : Nat, qpScan [61, b] = [61, b])
    ∧ qpScan [61] = [61]
    ∧ (∀ b : Nat, b ≠ 61 → ∀ rest, qpScan (b :: rest) = b :: qpScan rest) := by
  refine ⟨fun s => rfl, ?_, ?_, qpScan_pair, qpScan_single 61, qpScan_cons_ne⟩
  · intro h1 h2 hh1 hh2 rest
    show (if isHexB h1 && isHexB h2 then (16 * hexVal h1 + hexVal h2) :: qpScan rest
          else 61 :: qpScan (h1 :: h2 :: rest)) = _
    rw [if_pos (by rw [hh1, hh2]; rfl)]
  · intro h1 h2 hh rest
    show (if isHexB h1 && isHexB h2 then (16 * hexVal h1 + hexVal h2) :: qpScan rest
          else 61 :: qpScan (h1 :: h2 :: rest)) = _
    rw [if_neg (by rw [hh]; exact Bool.false_ne_true)]

/-- Witness for the amended C6 at concrete bytes: `=41` decodes to `A`,
`=g1` keeps the equals sign literally, a trailing `=` and `=X` stay, and a
non-equals byte is copied. -/
theorem c6_qp_phases_witness :
    decodeQuotedPrintable (ascii ("a=41")) =
      qpScan (replaceAll (replaceAll (ascii ("a=41")) (ascii ("=\r\n")) []) (ascii ("=\n")) [])
    ∧ qpScan [61, 52, 49] = [65]
    ∧ qpScan [61, 103, 49, 97] = 61 :: qpScan [103, 49, 97]
    ∧ qpScan [98, 52, 49, 50] = 98 :: qpScan [52, 49, 50] := by
  obtain ⟨h1, h2, h3, _, _, h6⟩ := c6_qp_phases
  refine ⟨h1 (ascii ("a=41")), ?_, h3 103 49 (by decide) [97], h6 98 (by decide) [52, 49, 50]⟩
  have := h2 52 49 (by decide) (by decide) []
  rw [this]
  decide

/-- A configuration with CSS removal enabled, as in the repository's css
tests; the length limits mirror css_test.go. -/
def cfgCSS : RSSConfig :=
  { OutputDir := ascii ("/tmp"), Title := ascii ("Test RSS"),
    BaseURL := ascii ("http://localhost:8080"),
    MaxHTMLContentLength := 8000, MaxTextContentLength := 3000,
    MaxRSSHTMLLength := 5000, MaxRSSTextLength := 2900,
    MaxSummaryLength := 300, RemoveCSS := true }

/-- C2: with CSS removal enabled, an input whose `style=` attribute value
has no closing quote and no following `>` drives `removeCSS` into the
fall-through of generator.go lines 540-559: the string is truncated to the
attribute start and then sliced at `quoteEnd = styleAttrStart + 8`, past the
new end — in Go a slice-bounds-out-of-range panic, not a normal return.
`processHTMLContent` always calls `removeCSS`, and `processContent` calls it
whenever the content sniffs as HTML, so both raise on such inputs,
contradicting the claim (and the spec's stated error policy) that every
input produces a bounded output without raising. -/
theorem c2_panic :
    processHTMLContent cfgCSS (ascii ("a style=\"x")) = none
    ∧ processContent cfgCSS (ascii ("<div style=\"x")) = none := by decide

/-- C5: on `a<style>b` — an opening style tag with no closing tag — the
source's unterminated-block branch (generator.go line 509) computes
`result[:styleStart] + result[tagEnd:]`, which removes only the opening tag
itself and keeps everything after it, while the comment on line 508 (and the
spec) say it removes from the opening tag to the end.  The output is `ab`:
the trailing content `b` survives, contradicting the claim that nothing
after the opening tag remains. -/
theorem c5_unterminated_style :
    removeCSS cfgCSS (ascii ("a<style>b")) = some (ascii ("ab"))
    ∧ goContains (ascii ("ab")) (ascii ("b")) = true
    ∧ ascii ("ab") ≠ ascii ("a") := by decide

/-- UTF-8 continuation byte test (second and later bytes of a multi-byte
code point). -/
def utf8ContB (b : Nat) : Bool := 128 ≤ b && b < 192

/-- Code point count of a byte string: the bytes that start a code point. -/
def utf8CharCount (s : List Nat) : Nat := (s.filter (fun b => !utf8ContB b)).length

/-- Position `n` is a code-point boundary of `s`: at an end, or at a byte
that does not continue a multi-byte sequence. -/
def isUtf8Boundary (s : List Nat) (n : Nat) : Bool :=
  n = 0 || s.length ≤ n || !utf8ContB (s.getD n 0)

/-- A configuration for the truncation counterexample: HTML limit 5,
CSS removal disabled. -/
def cfgTrunc : RSSConfig :=
  { OutputDir := [], Title := [], BaseURL := [],
    MaxHTMLContentLength := 5, MaxTextContentLength := 5,
    MaxRSSHTMLLength := 5, MaxRSSTextLength := 5,
    MaxSummaryLength := 5, RemoveCSS := false }

/-- C4 counterexample: the input `aaaa` + e-acute (bytes
[97,97,97,97,195,169]) has 5 code points, not exceeding the limit 5, yet
`processHTMLContent` truncates — the comparison is on the byte count 6 —
and the kept prefix ends after the lead byte 195, cutting position 5 inside
the two-byte code point: the truncation is not on a code-point boundary. -/
theorem c4_counterexample :
    utf8CharCount [97, 97, 97, 97, 195, 169] = 5
    ∧ cfgTrunc.MaxHTMLContentLength = 5
    ∧ processHTMLContent cfgTrunc [97, 97, 97, 97, 195, 169] =
        some ([97, 97, 97, 97, 195] ++ dots)
    ∧ isUtf8Boundary [97, 97, 97, 97, 195, 169] 5 = false := by decide

/-- The joined first-five-lines string whose byte length the summary
truncation of `createSummaryFromText` compares and slices (the repeated
expression of generator.go lines 457-464). -/
def summaryJoined (text : List Nat) : List Nat :=
  List.intercalate (ascii (" "))
    ((((text.splitOn 10).map trimSpace).filter (fun l => l ≠ [])).take 5)

/-- C4 as amended: every max-length comparison and truncation of the
normalizer is on the byte count, and truncation keeps exactly the first
`max` bytes (plus the ellipsis marker), whatever code point structure the
cut falls through; with a byte count within the limit the content passes
unchanged.  The conjuncts cover all the truncation sites the claim names:
the JSON-path HTML and text limits (`processHTMLContent`,
`processTextContent`), the RSS-path HTML and text limits of
`processContent` (both its branches), and the summary limit of
`createSummaryFromText`.  (CSS removal disabled isolates the truncation;
`processTextContent` and `createSummaryFromText` never run CSS removal.) -/
theorem c4_byte_truncation (cfg : RSSConfig) (c : List Nat)
    (hcss : cfg.RemoveCSS = false) :
    (cfg.MaxHTMLContentLength < c.length →
      processHTMLContent cfg c = some (c.take cfg.MaxHTMLContentLength ++ dots))
    ∧ (c.length ≤ cfg.MaxHTMLContentLength → processHTMLContent cfg c = some c)
    ∧ (cfg.MaxTextContentLength < c.length →
      processTextContent cfg c = c.take cfg.MaxTextContentLength ++ dots)
    ∧ (c.length ≤ cfg.MaxTextContentLength → processTextContent cfg c = c)
    ∧ (isHTMLDetect c = true → cfg.MaxRSSHTMLLength < c.length →
      processContent cfg c = some (c.take cfg.MaxRSSHTMLLength ++ dots))
    ∧ (isHTMLDetect c = true → c.length ≤ cfg.MaxRSSHTMLLength →
      processContent cfg c = some c)
    ∧ (isHTMLDetect c = false → c ≠ [] →
      cfg.MaxRSSTextLength < (escapeString c).length →
      processContent cfg c =
        some (preOpen ++ ((escapeString c).take cfg.MaxRSSTextLength ++ dots) ++ preClose))
    ∧ (isHTMLDetect c = false → c ≠ [] →
      (escapeString c).length ≤ cfg.MaxRSSTextLength →
      processContent cfg c = some (preOpen ++ escapeString c ++ preClose))
    ∧ (∀ text : List Nat, text ≠ [] →
      cfg.MaxSummaryLength < (summaryJoined text).length →
      createSummaryFromText cfg text =
        (summaryJoined text).take cfg.MaxSummaryLength ++ dots) := by
  have hrm : removeCSS cfg c = some c := by
    unfold removeCSS
    rw [if_pos hcss]
  have hlenpre : (preOpen ++ escapeString c ++ preClose).length =
      (escapeString c).length + 11 := by
    rw [List.length_append, List.length_append]
    have h5 : preOpen.length = 5 := by decide
    have h6 : preClose.length = 6 := by decide
    omega
  refine ⟨?_, ?_, ?_, ?_, ?_, ?_, ?_, ?_, ?_⟩
  · intro hlt
    unfold processHTMLContent
    rw [if_neg (by omega), hrm]
    show (if cfg.MaxHTMLContentLength < c.length then
        some (c.take cfg.MaxHTMLContentLength ++ dots) else some c) = _
    rw [if_pos hlt]
  · intro hle
    unfold processHTMLContent
    by_cases h0 : c.length = 0
    · rw [if_pos h0, List.length_eq_zero.mp h0]
    · rw [if_neg h0, hrm]
      show (if cfg.MaxHTMLContentLength < c.length then
          some (c.take cfg.MaxHTMLContentLength ++ dots) else some c) = _
      rw [if_neg (by omega)]
  · intro hlt
    unfold processTextContent
    rw [if_neg (by omega), if_pos hlt]
  · intro hle
    unfold processTextContent
    by_cases h0 : c.length = 0
    · rw [if_pos h0, List.length_eq_zero.mp h0]
    · rw [if_neg h0, if_neg (by omega)]
  · intro hsniff hlt
    unfold processContent
    rw [if_neg (by omega), if_pos hsniff, hrm]
    show (if cfg.MaxRSSHTMLLength < c.length then
        some (c.take cfg.MaxRSSHTMLLength ++ dots) else some c) = _
    rw [if_pos hlt]
  · intro hsniff hle
    have h0 : c.length ≠ 0 := by
      intro h0
      rw [List.length_eq_zero.mp h0] at hsniff
      exact absurd hsniff (by decide)
    unfold processContent
    rw [if_neg h0, if_pos hsniff, hrm]
    show (if cfg.MaxRSSHTMLLength < c.length then
        some (c.take cfg.MaxRSSHTMLLength ++ dots) else some c) = _
    rw [if_neg (by omega)]
  · intro hsniff hne hlt
    have h0 : c.length ≠ 0 := fun h => hne (List.length_eq_zero.mp h)
    unfold processContent
    rw [if_neg h0, if_neg (by rw [hsniff]; exact Bool.false_ne_true),
      if_pos (by omega), if_pos hlt]
  · intro hsniff hne hle
    have h0 : c.length ≠ 0 := fun h => hne (List.length_eq_zero.mp h)
    unfold processContent
    rw [if_neg h0, if_neg (by rw [hsniff]; exact Bool.false_ne_true),
      if_neg (by omega)]
  · intro text htext hlt
    unfold summaryJoined at hlt
    unfold createSummaryFromText
    rw [if_neg htext, if_pos (Or.inr hlt), if_pos hlt]
    unfold summaryJoined
    rfl

/-- Witness for the amended C4 with every limit set to 5: a 6-byte JSON-path
input is cut to its first 5 bytes plus the marker and a 5-byte one passes
unchanged; an HTML-sniffed 8-byte RSS description is cut to 5 bytes and a
4-byte one passes; a plain-text RSS description of 8 bytes has its escaped
content cut to 5 bytes inside the pre wrapper and a 2-byte one passes; and
an 8-byte summary line is cut to its first 5 bytes plus the marker. -/
theorem c4_byte_truncation_witness :
    processHTMLContent cfgTrunc [97, 97, 97, 97, 195, 169] =
        some (([97, 97, 97, 97, 195, 169].take 5) ++ dots)
    ∧ processTextContent cfgTrunc [104, 104, 104, 104, 104] = [104, 104, 104, 104, 104]
    ∧ processContent cfgTrunc (ascii ("<div>aaa")) =
        some ((ascii ("<div>aaa")).take 5 ++ dots)
    ∧ processContent cfgTrunc (ascii ("<div")) = some (ascii ("<div"))
    ∧ processContent cfgTrunc (ascii ("aaaaaaaa")) =
        some (preOpen ++ ((escapeString (ascii ("aaaaaaaa"))).take 5 ++ dots) ++ preClose)
    ∧ processContent cfgTrunc (ascii ("aa")) =
        some (preOpen ++ escapeString (ascii ("aa")) ++ preClose)
    ∧ createSummaryFromText cfgTrunc (ascii ("aaaaaaaa")) =
        (summaryJoined (ascii ("aaaaaaaa"))).take 5 ++ dots := by
  obtain ⟨h1, _, _, _, _, _, _, _, _⟩ :=
    c4_byte_truncation cfgTrunc [97, 97, 97, 97, 195, 169] rfl
  obtain ⟨_, _, _, h4b, _, _, _, _, _⟩ :=
    c4_byte_truncation cfgTrunc [104, 104, 104, 104, 104] rfl
  obtain ⟨_, _, _, _, h5c, _, _, _, _⟩ :=
    c4_byte_truncation cfgTrunc (ascii ("<div>aaa")) rfl
  obtain ⟨_, _, _, _, _, h6d, _, _, _⟩ :=
    c4_byte_truncation cfgTrunc (ascii ("<div")) rfl
  obtain ⟨_, _, _, _, _, _, h7e, h8e, h9e⟩ :=
    c4_byte_truncation cfgTrunc (ascii ("aaaaaaaa")) rfl
  obtain ⟨_, _, _, _, _, _, _, h8f, _⟩ :=
    c4_byte_truncation cfgTrunc (ascii ("aa")) rfl
  exact ⟨h1 (by decide), h4b (by decide), h5c (by decide) (by decide),
    h6d (by decide) (by decide), h7e (by decide) (by decide) (by decide),
    h8f (by decide) (by decide) (by decide),
    h9e (ascii ("aaaaaaaa")) (by decide) (by decide)⟩

/-- The content-sniffing predicate in the claim's words: the lowercased
string contains one of the four HTML markers. -/
def sniffHTML (s : List Nat) : Bool :=
  goContains (toLower s) (ascii ("<html")) ||
  goContains (toLower s) (ascii ("<body")) ||
  goContains (toLower s) (ascii ("<div")) ||
  goContains (toLower s) (ascii ("<p>"))

/-- The RSS description builder in the claim's words: when the sniff fires,
CSS removal and the HTML length limit are applied with no escaping;
otherwise the content is HTML-escaped, the text length limit is applied to
the escaped content, and the result is wrapped in a pre element. -/
def processContentClaim (cfg : RSSConfig) (c : List Nat) : Option (List Nat) :=
  if sniffHTML c then
    match removeCSS cfg c with
    | none => none
    | some h =>
      some (if cfg.MaxRSSHTMLLength < h.length then h.take cfg.MaxRSSHTMLLength ++ dots else h)
  else
    some (preOpen ++
      (if cfg.MaxRSSTextLength < (escapeString c).length then
        (escapeString c).take cfg.MaxRSSTextLength ++ dots
      else escapeString c) ++ preClose)

/-- C10: for every non-empty input, `processContent` branches exactly on the
content-sniffing predicate of the claim — lowercased containment of one of
`<html`, `<body`, `<div`, `<p>` — independently of which source field the
content came from; the sniffed branch applies CSS removal and the
RSS-HTML limit without escaping, the other branch escapes and wraps in a
pre element under the RSS-text limit.  In particular a plain-text body that
happens to contain `<div` goes down the unescaped HTML branch. -/
theorem c10_sniffing (cfg : RSSConfig) (c : List Nat) (hne : c ≠ []) :
    processContent cfg c = processContentClaim cfg c := by
  unfold processContent processContentClaim
  rw [if_neg (by simpa using hne)]
  have hsniff : isHTMLDetect c = sniffHTML c := rfl
  rw [hsniff]
  by_cases hs : sniffHTML c
  · rw [if_pos hs, if_pos hs]
    cases removeCSS cfg c with
    | none => rfl
    | some h =>
      show (if cfg.MaxRSSHTMLLength < h.length then
            some (h.take cfg.MaxRSSHTMLLength ++ dots) else some h)
          = some (if cfg.MaxRSSHTMLLength < h.length then
            h.take cfg.MaxRSSHTMLLength ++ dots else h)
      by_cases hl : cfg.MaxRSSHTMLLength < h.length
      · rw [if_pos hl, if_pos hl]
      · rw [if_neg hl, if_neg hl]
  · rw [if_neg hs, if_neg hs]
    have hlen : (preOpen ++ escapeString c ++ preClose).length =
        (escapeString c).length + 11 := by
      rw [List.length_append, List.length_append]
      have h5 : preOpen.length = 5 := by decide
      have h6 : preClose.length = 6 := by decide
      omega
    by_cases he : cfg.MaxRSSTextLength < (escapeString c).length
    · rw [if_pos (by omega), if_pos he]
    · rw [if_neg (by omega), if_neg he]

/-- Witness for C10: the plain-text bytes `x<div y` (no HTML document
structure, but containing `<div`) are non-empty and processed per the
claim's branch structure; with CSS removal disabled they pass through the
HTML branch verbatim, unescaped. -/
theorem c10_sniffing_witness :
    ascii ("x<div y") ≠ []
    ∧ processContent cfgTrunc (ascii ("x<div y")) = processContentClaim cfgTrunc (ascii ("x<div y")) := by
  refine ⟨by decide, c10_sniffing cfgTrunc (ascii ("x<div y")) (by decide)⟩

/-- The identifiers and timestamps of the RSS items follow the message slice
one-to-one, in order. -/
theorem buildRSSItems_map (cfg : RSSConfig) (folder : List Nat) :
    ∀ (ms : List EmailMessage) (items : List RSSItem),
      buildRSSItems cfg folder ms = some items →
      items.map RSSItem.id = ms.map (fun m => goID folder m.UID)
      ∧ items.map RSSItem.created = ms.map EmailMessage.Date := by
  intro ms
  induction ms with
  | nil =>
    intro items h
    cases h
    exact ⟨rfl, rfl⟩
  | cons m rest ih =>
    intro items h
    unfold buildRSSItems at h
    cases hi : buildRSSItem cfg folder m with
    | none => rw [hi] at h; simp at h
    | some i =>
      rw [hi] at h
      cases hr : buildRSSItems cfg folder rest with
      | none =>
        rw [hr] at h
        simp at h
      | some restItems =>
        rw [hr] at h
        have hii : items = i :: restItems := by
          have : some (i :: restItems) = some items := h
          exact (Option.some.injEq _ _ ▸ this).symm
        subst hii
        obtain ⟨hid, hcr⟩ := ih restItems hr
        have hfields : i.id = goID folder m.UID ∧ i.created = m.Date := by
          unfold buildRSSItem at hi
          cases hp : processContent cfg (if m.HTMLBody ≠ [] then m.HTMLBody else m.TextBody) with
          | none => rw [hp] at hi; simp at hi
          | some pc =>
            rw [hp] at hi
            have : ({ title := m.Subject, link := goURL cfg m.UID, description := pc,
                      authorName := m.From, created := m.Date,
                      id := goID folder m.UID } : RSSItem) = i := by
              have := hi
              exact (Option.some.injEq _ _ ▸ this)
            rw [← this]
            exact ⟨rfl, rfl⟩
        simp [List.map_cons, hid, hcr, hfields.1, hfields.2]

/-- The identifiers and timestamps of the JSON items follow the message
slice one-to-one, in order. -/
theorem buildJSONItems_map (cfg : RSSConfig) (folder : List Nat) :
    ∀ (ms : List EmailMessage) (items : List JSONItemM),
      buildJSONItems cfg folder ms = some items →
      items.map JSONItemM.id = ms.map (fun m => goID folder m.UID)
      ∧ items.map JSONItemM.datePublished = ms.map EmailMessage.Date := by
  intro ms
  induction ms with
  | nil =>
    intro items h
    cases h
    exact ⟨rfl, rfl⟩
  | cons m rest ih =>
    intro items h
    unfold buildJSONItems at h
    cases hi : buildJSONItem cfg folder m with
    | none => rw [hi] at h; simp at h
    | some i =>
      rw [hi] at h
      cases hr : buildJSONItems cfg folder rest with
      | none =>
        rw [hr] at h
        simp at h
      | some restItems =>
        rw [hr] at h
        have hii : items = i :: restItems := by
          have : some (i :: restItems) = some items := h
          exact (Option.some.injEq _ _ ▸ this).symm
        subst hii
        obtain ⟨hid, hcr⟩ := ih restItems hr
        have hfields : i.id = goID folder m.UID ∧ i.datePublished = m.Date := by
          unfold buildJSONItem at hi
          cases hp : (if m.HTMLBody ≠ [] then processHTMLContent cfg m.HTMLBody else some []) with
          | none => rw [hp] at hi; simp at hi
          | some ch =>
            rw [hp] at hi
            have := (Option.some.injEq _ _ ▸ hi)
            rw [← this]
            exact ⟨rfl, rfl⟩
        simp [List.map_cons, hid, hcr, hfields.1, hfields.2]

/-- C3 as amended: the two documents built from one message sequence carry
the same item set with the same identifiers `folder`, underscore, message
id, in the same positions — but that shared order is the order of the
message sequence itself (the generators append in iteration order and never
sort), not descending-by-timestamp. -/
theorem c3_same_items_input_order (cfg : RSSConfig) (folder : List Nat)
    (msgs : List EmailMessage) (items : List RSSItem) (jitems : List JSONItemM)
    (h1 : buildRSSItems cfg folder msgs = some items)
    (h2 : buildJSONItems cfg folder msgs = some jitems) :
    items.map RSSItem.id = jitems.map JSONItemM.id
    ∧ items.map RSSItem.id = msgs.map (fun m => goID folder m.UID)
    ∧ items.map RSSItem.created = msgs.map EmailMessage.Date
    ∧ jitems.map JSONItemM.datePublished = msgs.map EmailMessage.Date := by
  obtain ⟨hr1, hr2⟩ := buildRSSItems_map cfg folder msgs items h1
  obtain ⟨hj1, hj2⟩ := buildJSONItems_map cfg folder msgs jitems h2
  exact ⟨hr1.trans hj1.symm, hr1, hr2, hj2⟩

/-- The two-message input of the C3 counterexample: uid 1 with timestamp 1
first, uid 2 with timestamp 2 second, plain one-byte text bodies. -/
def msgsC3 : List EmailMessage :=
  [{ UID := 1, Subject := ascii ("s1"), From := ascii ("a@x"), Date := 1,
     TextBody := [104], HTMLBody := [] },
   { UID := 2, Subject := ascii ("s2"), From := ascii ("b@x"), Date := 2,
     TextBody := [104], HTMLBody := [] }]

def rssCreatedOf : Option (List RSSItem) → List Nat
  | none => []
  | some l => l.map RSSItem.created

def jsonCreatedOf : Option (List JSONItemM) → List Nat
  | none => []
  | some l => l.map JSONItemM.datePublished

/-- C3 counterexample: for the message sequence [timestamp 1, timestamp 2]
both generators emit the items in that input order, so the timestamp
sequence of both documents is [1, 2], which is not descending — the claimed
ordering (descending by timestamp, ties by id descending) does not hold. -/
theorem c3_counterexample :
    rssCreatedOf (buildRSSItems cfgTrunc (ascii ("F")) msgsC3) = [1, 2]
    ∧ jsonCreatedOf (buildJSONItems cfgTrunc (ascii ("F")) msgsC3) = [1, 2]
    ∧ ¬ List.Pairwise (fun a b : Nat => b ≤ a) [1, 2] := by decide

def rssIdsOf : Option (List RSSItem) → List (List Nat)
  | none => []
  | some l => l.map RSSItem.id

def jsonIdsOf : Option (List JSONItemM) → List (List Nat)
  | none => []
  | some l => l.map JSONItemM.id

/-- Witness for the amended C3 at the concrete two-message input: both
documents carry identifiers F_1 then F_2, equal across formats and matching
the input order. -/
theorem c3_same_items_input_order_witness :
    rssIdsOf (buildRSSItems cfgTrunc (ascii ("F")) msgsC3)
      = jsonIdsOf (buildJSONItems cfgTrunc (ascii ("F")) msgsC3)
    ∧ rssIdsOf (buildRSSItems cfgTrunc (ascii ("F")) msgsC3)
      = msgsC3.map (fun m => goID (ascii ("F")) m.UID) := by
  cases hr : buildRSSItems cfgTrunc (ascii ("F")) msgsC3 with
  | none => exact absurd hr (by decide)
  | some items =>
    cases hj : buildJSONItems cfgTrunc (ascii ("F")) msgsC3 with
    | none => exact absurd hj (by decide)
    | some jitems =>
      obtain ⟨ha, hb, _, _⟩ :=
        c3_same_items_input_order cfgTrunc (ascii ("F")) msgsC3 items jitems hr hj
      exact ⟨ha, hb⟩

/-- An upsert never un-processes anything: a key that read as processed
still does after any other mark. -/
theorem isProcessed_mark_mono (db : List DBRec) (folder : List Nat) (uid : Nat)
    (s fr : List Nat) (d : Nat) (f2 : List Nat) (u2 : Nat)
    (h : isMessageProcessed db f2 u2 = true) :
    isMessageProcessed (markMessageProcessed db folder uid s fr d) f2 u2 = true := by
  unfold isMessageProcessed at h ⊢
  unfold markMessageProcessed
  rw [List.any_eq_true] at h ⊢
  obtain ⟨r, hr, hpred⟩ := h
  rw [Bool.and_eq_true, beq_iff_eq, beq_iff_eq] at hpred
  obtain ⟨hf, hu⟩ := hpred
  by_cases hkey : f2 = folder ∧ u2 = uid
  · refine ⟨{ folder := folder, uid := uid, subject := s, fromAddr := fr, date := d }, ?_, ?_⟩
    · exact List.mem_append.mpr (Or.inr (by simp))
    · simp [hkey.1, hkey.2]
  · refine ⟨r, List.mem_append.mpr (Or.inl ?_), by simp [hf, hu]⟩
    rw [List.mem_filter]
    refine ⟨hr, ?_⟩
    by_cases hff : r.folder = folder
    · have hfe : f2 = folder := hf ▸ hff
      have hue : u2 ≠ uid := fun hueq => hkey ⟨hfe, hueq⟩
      have : r.uid ≠ uid := by rw [hu]; exact hue
      simp [this]
    · simp [hff]

/-- Every message the pass collects as new was unprocessed in the ledger
state the pass started from. -/
theorem processMessages_unseen (folderPath : List Nat) (fetch : Nat → Option MessageContent) :
    ∀ (msgs : List IMAPMessage) (db : List DBRec) (e : EmailMessage),
      e ∈ (processMessages db folderPath fetch msgs).1 →
      isMessageProcessed db folderPath e.UID = false := by
  intro msgs
  induction msgs with
  | nil =>
    intro db e he
    simp [processMessages] at he
  | cons msg rest ih =>
    intro db e he
    unfold processMessages at he
    by_cases hp : isMessageProcessed db folderPath msg.uid
    · rw [if_pos hp] at he
      exact ih db e he
    · rw [if_neg hp] at he
      replace he : e ∈
          ({ UID := msg.uid, Subject := msg.subject, From := msg.fromAddr, Date := msg.date,
             TextBody := (match fetch msg.uid with | some c => c | none => ⟨[], []⟩).textBody,
             HTMLBody := (match fetch msg.uid with | some c => c | none => ⟨[], []⟩).htmlBody }
            :: (processMessages
                (markMessageProcessed db folderPath msg.uid msg.subject msg.fromAddr msg.date)
                folderPath fetch rest).1) := he
      rcases List.mem_cons.mp he with heq | hmem
      · rw [heq]
        rw [Bool.eq_false_iff]
        exact fun htrue => hp htrue
      · have hrec := ih
          (markMessageProcessed db folderPath msg.uid msg.subject msg.fromAddr msg.date) e hmem
        rw [Bool.eq_false_iff]
        intro htrue
        rw [isProcessed_mark_mono db folderPath msg.uid msg.subject msg.fromAddr msg.date
          folderPath e.UID htrue] at hrec
        exact Bool.noConfusion hrec

/-- C1 as amended: the feed documents of a pass are built from exactly the
messages newly processed in that pass — every feed item corresponds
positionally to a new message, every new message was unprocessed in the
ledger at the start of the pass, and a pass with no new messages writes no
feed at all.  The feed content is therefore a function of the pass's new
messages, not of the ledger's retained window (the source marks window
regeneration as future work in a TODO). -/
theorem c1_feed_from_new_only (cfg : RSSConfig) (db0 : List DBRec) (folderPath : List Nat)
    (listMsgs : Nat → List IMAPMessage) (fetch : Nat → Option MessageContent) :
    (∀ res r j, processFolder cfg db0 folderPath listMsgs fetch = some res →
      res.feeds = some (r, j) →
      r.map RSSItem.id =
        ((processMessages db0 folderPath fetch
            (listMsgs (getLastProcessedDate db0 folderPath))).1).map
          (fun e => goID folderPath e.UID))
    ∧ (∀ e ∈ (processMessages db0 folderPath fetch
          (listMsgs (getLastProcessedDate db0 folderPath))).1,
        isMessageProcessed db0 folderPath e.UID = false)
    ∧ (∀ db1, processMessages db0 folderPath fetch
          (listMsgs (getLastProcessedDate db0 folderPath)) = ([], db1) →
        processFolder cfg db0 folderPath listMsgs fetch = some { db := db1, feeds := none }) := by
  refine ⟨?_, ?_, ?_⟩
  · intro res r j hres hfeeds
    unfold processFolder at hres
    cases hpm : processMessages db0 folderPath fetch
        (listMsgs (getLastProcessedDate db0 folderPath)) with
    | mk newMessages db1 =>
      rw [hpm] at hres
      replace hres :
          (if newMessages = [] then some { db := db1, feeds := none }
           else
            match buildRSSItems cfg folderPath newMessages with
            | none => none
            | some ri =>
              match buildJSONItems cfg folderPath newMessages with
              | none => none
              | some ji => some { db := db1, feeds := some (ri, ji) }) = some res := hres
      by_cases hemp : newMessages = []
      · rw [if_pos hemp] at hres
        have : res = { db := db1, feeds := none } := by
          injection hres with h
          exact h.symm
        rw [this] at hfeeds
        simp at hfeeds
      · rw [if_neg hemp] at hres
        cases hri : buildRSSItems cfg folderPath newMessages with
        | none => rw [hri] at hres; simp at hres
        | some ri =>
          rw [hri] at hres
          cases hji : buildJSONItems cfg folderPath newMessages with
          | none => rw [hji] at hres; simp at hres
          | some ji =>
            rw [hji] at hres
            have hresv : res = { db := db1, feeds := some (ri, ji) } := by
              injection hres with h
              exact h.symm
            rw [hresv] at hfeeds
            simp only [PassResult.mk.injEq] at hfeeds
            have hrij : ri = r ∧ ji = j := by
              have := Option.some.injEq _ _ ▸ hfeeds
              exact ⟨congrArg Prod.fst this, congrArg Prod.snd this⟩
            rw [← hrij.1]
            exact (buildRSSItems_map cfg folderPath newMessages ri hri).1
  · intro e he
    exact processMessages_unseen folderPath fetch _ db0 e he
  · intro db1 hpm
    unfold processFolder
    rw [hpm]
    rfl

/-- The ledger row of message 1 as scenario A of the C1 counterexample
starts with it (identical to what marking message 1 writes). -/
def recA : DBRec :=
  { folder := ascii ("F"), uid := 1, subject := ascii ("s1"),
    fromAddr := ascii ("a@x"), date := 5 }

/-- The ledger row marking message 2 writes. -/
def recB : DBRec :=
  { folder := ascii ("F"), uid := 2, subject := ascii ("s2"),
    fromAddr := ascii ("b@x"), date := 6 }

/-- The mail capability of the C1 counterexample: both scenarios see the
same two messages. -/
def listW : Nat → List IMAPMessage := fun _ =>
  [{ uid := 1, subject := ascii ("s1"), fromAddr := ascii ("a@x"), date := 5 },
   { uid := 2, subject := ascii ("s2"), fromAddr := ascii ("b@x"), date := 6 }]

/-- The body fetch of the C1 counterexample: one text byte. -/
def fetchW : Nat → Option MessageContent := fun _ => some { textBody := [104], htmlBody := [] }

def passDBOf : Option PassResult → List DBRec
  | none => []
  | some p => p.db

def passFeedIdsOf : Option PassResult → Option (List (List Nat))
  | none => none
  | some p =>
    match p.feeds with
    | none => none
    | some rj => some (rj.1.map RSSItem.id)

/-- C1 counterexample: two passes that end in the identical ledger state
write different feed documents, so the feed content is not a function of
ledger state alone, and it is not regenerated from the ledger's retained
window.  Scenario A starts with message 1 already ledgered and feeds only
item F_2; scenario B starts with an empty ledger and feeds F_1 and F_2;
both end with rows for messages 1 and 2. -/
theorem c1_counterexample :
    passDBOf (processFolder cfgTrunc [recA] (ascii ("F")) listW fetchW)
      = passDBOf (processFolder cfgTrunc [] (ascii ("F")) listW fetchW)
    ∧ passFeedIdsOf (processFolder cfgTrunc [recA] (ascii ("F")) listW fetchW)
      = some [goID (ascii ("F")) 2]
    ∧ passFeedIdsOf (processFolder cfgTrunc [] (ascii ("F")) listW fetchW)
      = some [goID (ascii ("F")) 1, goID (ascii ("F")) 2]
    ∧ passFeedIdsOf (processFolder cfgTrunc [recA] (ascii ("F")) listW fetchW)
      ≠ passFeedIdsOf (processFolder cfgTrunc [] (ascii ("F")) listW fetchW) := by decide

/-- The email record message 2 turns into during the pass. -/
def emailBW : EmailMessage :=
  { UID := 2, Subject := ascii ("s2"), From := ascii ("b@x"), Date := 6,
    TextBody := [104], HTMLBody := [] }

/-- Witness for the amended C1: in scenario A the feed identifier list is
exactly the new-message identifier list (only F_2); the one new message read
as unprocessed at the start of the pass; and a pass over a ledger that
already has both messages writes no feed. -/
theorem c1_feed_from_new_only_witness :
    passFeedIdsOf (processFolder cfgTrunc [recA] (ascii ("F")) listW fetchW)
      = some (((processMessages [recA] (ascii ("F")) fetchW
          (listW (getLastProcessedDate [recA] (ascii ("F"))))).1).map
          (fun e => goID (ascii ("F")) e.UID))
    ∧ isMessageProcessed [recA] (ascii ("F")) emailBW.UID = false
    ∧ processFolder cfgTrunc [recA, recB] (ascii ("F")) listW fetchW
        = some { db := [recA, recB], feeds := none } := by
  obtain ⟨h1, h2, _⟩ := c1_feed_from_new_only cfgTrunc [recA] (ascii ("F")) listW fetchW
  obtain ⟨_, _, h3b⟩ := c1_feed_from_new_only cfgTrunc [recA, recB] (ascii ("F")) listW fetchW
  refine ⟨?_, h2 emailBW (by decide), h3b [recA, recB] (by decide)⟩
  cases hres : processFolder cfgTrunc [recA] (ascii ("F")) listW fetchW with
  | none => exact absurd hres (by decide)
  | some res =>
    cases hfeeds : res.feeds with
    | none =>
      exfalso
      have hne := c1_counterexample.2.1
      rw [hres] at hne
      have hv : passFeedIdsOf (some res) = none := by
        show (match res.feeds with
              | none => none
              | some rj => some (rj.1.map RSSItem.id)) = none
        rw [hfeeds]
      rw [hv] at hne
      exact Option.noConfusion hne
    | some rj =>
      have hmap := h1 res rj.1 rj.2 hres (by rw [hfeeds])
      show passFeedIdsOf (some res) = _
      have hv : passFeedIdsOf (some res) = some (rj.1.map RSSItem.id) := by
        show (match res.feeds with
              | none => none
              | some rj2 => some (rj2.1.map RSSItem.id)) = _
        rw [hfeeds]
      rw [hv, hmap]

/-- The target paths of the write actions in an effect list. -/
def effWritePathsOf : Option (List FSEffect) → Option (List (List Nat))
  | none => none
  | some l =>
    some (l.filterMap (fun eff =>
      match eff with
      | FSEffect.writeRSSFile p _ => some p
      | FSEffect.writeJSONFile p _ => some p
      | _ => none))

/-- Whether an effect list contains any rename. -/
def effHasRenameOf : Option (List FSEffect) → Bool
  | none => false
  | some l =>
    l.any (fun eff =>
      match eff with
      | FSEffect.renameFile _ _ => true
      | _ => false)

/-- C7 counterexample: a concrete feed generation writes exactly one
document, by `os.WriteFile` directly at the final configured output path,
and performs no rename at all — there is no temporary file and no
write-then-rename step.  `os.WriteFile` opens the destination with truncate
and streams the bytes into it in place, so a concurrent reader of the
output path can observe a partially written document; the claimed
total-file-replace discipline is absent. -/
theorem c7_counterexample :
    effWritePathsOf (generateFeedEffects cfgTrunc (ascii ("F")) (ascii ("feed")) [])
      = some [feedPathXML cfgTrunc (ascii ("feed"))]
    ∧ effHasRenameOf (generateFeedEffects cfgTrunc (ascii ("F")) (ascii ("feed")) []) = false
    ∧ effWritePathsOf (generateJSONFeedEffects cfgTrunc (ascii ("F")) (ascii ("feed")) [])
      = some [feedPathJSON cfgTrunc (ascii ("feed"))]
    ∧ effHasRenameOf (generateJSONFeedEffects cfgTrunc (ascii ("F")) (ascii ("feed")) [])
      = false := by decide

/-- C7 as amended: each generated document is written by `os.MkdirAll` on
the output directory followed by a single direct whole-file `os.WriteFile`
at the final output path; no temporary file and no rename are involved, so
the write is not atomic with respect to a concurrent reader. -/
theorem c7_direct_write (cfg : RSSConfig) (folder feedName : List Nat)
    (msgs : List EmailMessage) (items : List RSSItem) (jitems : List JSONItemM)
    (h1 : buildRSSItems cfg folder msgs = some items)
    (h2 : buildJSONItems cfg folder msgs = some jitems) :
    generateFeedEffects cfg folder feedName msgs
      = some [FSEffect.mkdirAll cfg.OutputDir,
              FSEffect.writeRSSFile (feedPathXML cfg feedName) items]
    ∧ generateJSONFeedEffects cfg folder feedName msgs
      = some [FSEffect.mkdirAll cfg.OutputDir,
              FSEffect.writeJSONFile (feedPathJSON cfg feedName) jitems] := by
  unfold generateFeedEffects generateJSONFeedEffects
  rw [h1, h2]
  exact ⟨rfl, rfl⟩

/-- Witness for the amended C7 at a concrete configuration and message list. -/
theorem c7_direct_write_witness :
    generateFeedEffects cfgTrunc (ascii ("F")) (ascii ("feed")) []
      = some [FSEffect.mkdirAll cfgTrunc.OutputDir,
              FSEffect.writeRSSFile (feedPathXML cfgTrunc (ascii ("feed"))) []]
    ∧ generateJSONFeedEffects cfgTrunc (ascii ("F")) (ascii ("feed")) []
      = some [FSEffect.mkdirAll cfgTrunc.OutputDir,
              FSEffect.writeJSONFile (feedPathJSON cfgTrunc (ascii ("feed"))) []] :=
  c7_direct_write cfgTrunc (ascii ("F")) (ascii ("feed")) [] [] [] rfl rfl
